import Mathlib

/-!
Verification of the rutils utility library (modules `rutils.base.fileio` and
`rutils.base.mplhelper`) against its natural-language specification.

Modelling conventions.
Filesystem paths are normalized component lists (`List String`); the
composition `os.path.dirname(os.path.normpath(path))` used by
`make_parent_dir` is modelled as dropping the last component.  File contents
are byte sequences (`List Nat`).  The filesystem is an explicit state
(`FS`): a set of existing directories plus an association list of regular
files.  External collaborators (the `json`, `pickle`, `msgpack`, `pandas`,
`hashlib` and `matplotlib` libraries) are not part of this repository and
are modelled as abstract function parameters; the repository wrappers
themselves are embedded faithfully.  Python floats are modelled as `ℚ`.
Python keyword-argument dictionaries are modelled as partial maps from key
strings to `PyVal` values, with `dict.update` as `mergeKW`.
-/

namespace Rutils

/-- Value stored in a Python keyword-argument dictionary. -/
inductive PyVal where
  | str (s : String)
  | int (n : Int)
  | bool (b : Bool)
deriving DecidableEq

/-- Python truthiness of a `PyVal`, used by `if tight_layout:` in `savefig`. -/
def PyVal.truthy : PyVal → Bool
  | .str s => s ≠ ""
  | .int n => n ≠ 0
  | .bool b => b

/-- Keyword-argument dictionary: a partial map from key to value. -/
abbrev KW := String → Option PyVal

/-- Empty keyword-argument dictionary (a call without extra arguments). -/
def emptyKW : KW := fun _ => none

/-- Models `d.update(kw)` on Python dictionaries: keys present in `kw`
override the entries of `d`. -/
def mergeKW (d kw : KW) : KW := fun k => (kw k).elim (d k) some

/-- Filesystem state: the set of existing directories and the existing
regular files with their byte contents.  Paths are component lists. -/
structure FS where
  dirs : List (List String)
  files : List (List String × List Nat)
deriving DecidableEq

/-- Whether path `p` exists as a regular file in `fs`. -/
def isFile (p : List String) (fs : FS) : Bool := fs.files.any (fun e => e.1 = p)

/-- Content of the regular file at `p`, when it exists. -/
def lookupFile (p : List String) (fs : FS) : Option (List Nat) :=
  (fs.files.find? (fun e => e.1 = p)).map (fun e => e.2)

/-- Models `open(p, mode=w) ... f.write(content)`: create or overwrite the
regular file at `p`. -/
def writeFile (p : List String) (content : List Nat) (fs : FS) : FS :=
  { fs with files := (p, content) :: fs.files.filter (fun e => ¬ e.1 = p) }

/-- Nonempty prefixes of a component path, i.e. the path itself and every
ancestor directory above it. -/
def ancestors (p : List String) : List (List String) := p.inits.filter (fun q => ¬ q = [])

/-- Models `os.makedirs(p, exist_ok=True)`: create every missing ancestor
directory of `p`.  Raises `FileNotFoundError` when `p` is the empty path
(CPython `mkdir` of the empty string fails even with `exist_ok=True`), and
`FileExistsError` when `p` or one of its ancestors already exists as a
regular file (`exist_ok` only suppresses the error for directories). -/
def makedirs (p : List String) (fs : FS) : Except String FS :=
  if p = [] then .error "FileNotFoundError"
  else if (ancestors p).any (fun q => isFile q fs) then .error "FileExistsError"
  else .ok { fs with dirs := (ancestors p).filter (fun q => ¬ q ∈ fs.dirs) ++ fs.dirs }

/-- Embeds `fileio.make_parent_dir`: `os.makedirs` on
`os.path.dirname(os.path.normpath(path))`, the latter modelled as dropping
the last path component. -/
def make_parent_dir (path : List String) (fs : FS) : Except String FS :=
  makedirs path.dropLast fs

/-- Embeds `fileio.write`: ensure the parent directory, then write text
content (modelled as bytes) to the file. -/
def write (out : List Nat) (filename : List String) (fs : FS) : Except String FS :=
  (make_parent_dir filename fs).map (writeFile filename out)

/-- Embeds `fileio.json_load`; `json.load` is the abstract decoder
`json_dec` applied to the file content.  `none` models both a missing file
and a parse error. -/
def json_load {A : Type} (json_dec : List Nat → Option A) (filename : List String)
    (fs : FS) : Option A :=
  (lookupFile filename fs).bind json_dec

/-- Embeds `fileio.json_dump`: ensure the parent directory, then write the
`json.dump` encoding of the value; the encoder `json_enc` receives the
forwarded keyword arguments. -/
def json_dump {A : Type} (json_enc : KW → A → List Nat) (data : A)
    (filename : List String) (kw : KW) (fs : FS) : Except String FS :=
  (make_parent_dir filename fs).map (writeFile filename (json_enc kw data))

/-- Default keyword arguments of `read_tsv`: `sep` is the tab character and
`header` is `0`. -/
def readTsvKw : KW := fun k =>
  if k = "sep" then some (.str "\t")
  else if k = "header" then some (.int 0)
  else none

/-- Embeds `fileio.read_tsv`: `pandas.read_csv` (abstract `read_csv`) on the
file content with the default keyword arguments overridden by the given
ones. -/
def read_tsv {DF : Type} (read_csv : KW → List Nat → Option DF) (filename : List String)
    (kw : KW) (fs : FS) : Option DF :=
  (lookupFile filename fs).bind (read_csv (mergeKW readTsvKw kw))

/-- Default keyword arguments of `to_tsv`: `sep` is the tab character and
`index` is `False`. -/
def toTsvKw : KW := fun k =>
  if k = "sep" then some (.str "\t")
  else if k = "index" then some (.bool false)
  else none

/-- Embeds `fileio.to_tsv`: ensure the parent directory, then write the
`DataFrame.to_csv` encoding (abstract `to_csv`) with the default keyword
arguments overridden by the given ones. -/
def to_tsv {DF : Type} (to_csv : KW → DF → List Nat) (df : DF) (filename : List String)
    (kw : KW) (fs : FS) : Except String FS :=
  (make_parent_dir filename fs).map (writeFile filename (to_csv (mergeKW toTsvKw kw) df))

/-- Embeds `fileio.pickle_load`; `pickle.load` is the abstract decoder
`pickle_dec`. -/
def pickle_load {B : Type} (pickle_dec : List Nat → Option B) (filename : List String)
    (fs : FS) : Option B :=
  (lookupFile filename fs).bind pickle_dec

/-- Embeds `fileio.pickle_dump`: ensure the parent directory, then write the
`pickle.dump` encoding; the encoder receives the forwarded keyword
arguments. -/
def pickle_dump {B : Type} (pickle_enc : KW → B → List Nat) (obj : B)
    (filename : List String) (kw : KW) (fs : FS) : Except String FS :=
  (make_parent_dir filename fs).map (writeFile filename (pickle_enc kw obj))

/-- Embeds `fileio.pack_msgpack`: ensure the parent directory, then write
the `msgpack.pack` encoding. -/
def pack_msgpack {C : Type} (msgpack_enc : C → List Nat) (o : C)
    (filename : List String) (fs : FS) : Except String FS :=
  (make_parent_dir filename fs).map (writeFile filename (msgpack_enc o))

/-- Embeds `fileio.unpack_msgpack`; `msgpack.unpack` is the abstract decoder
`msgpack_dec`. -/
def unpack_msgpack {C : Type} (msgpack_dec : List Nat → Option C) (filename : List String)
    (fs : FS) : Option C :=
  (lookupFile filename fs).bind msgpack_dec

/-- Models the read loop `iter(lambda: f.read(4096), b'')`: the successive
4096-byte chunks of the file content, ending at the first empty read. -/
def readChunks (content : List Nat) : List (List Nat) :=
  if content = [] then []
  else content.take 4096 :: readChunks (content.drop 4096)
termination_by content.length
decreasing_by
  simp only [List.length_drop]
  have hne : content.length ≠ 0 := by
    intro hc
    exact absurd (List.eq_nil_of_length_eq_zero hc) (by assumption)
  omega

/-- Embeds `fileio.md5`: read the file in 4096-byte chunks and feed each
chunk to an incremental MD5 digest.  The hashlib object is modelled by its
documented semantics: its state is the byte sequence fed so far (`update`
appends) and `hexdigest` is the abstract lowercase-hex digest function
`md5_hex` of that state. -/
def md5 (md5_hex : List Nat → String) (filename : List String) (fs : FS) : Option String :=
  (lookupFile filename fs).map (fun content =>
    md5_hex ((readChunks content).foldl (fun st chunk => st ++ chunk) []))

/-- Modelled from the spec: the one-pass digest of the entire byte content
of the file, the reference behaviour that the chunked implementation is
claimed to refine. -/
def md5_onepass (md5_hex : List Nat → String) (filename : List String) (fs : FS) :
    Option String :=
  (lookupFile filename fs).map md5_hex

/-- Result of the `ax.annotate` call made by `autotext`: the text, the
position, and the final keyword-argument dictionary. -/
structure AnnotCall where
  s : String
  xy : ℚ × ℚ
  kw : KW

/-- Embeds `mplhelper.autotext`: automatic alignment from the fractional
position, then the caller keyword arguments merged over the computed
defaults by `dict.update`. -/
def autotext (x y : ℚ) (s : String) (kwargs : KW) : AnnotCall :=
  let ha := if x = 1/2 then "center" else if x < 1/2 then "left" else "right"
  let va := if y = 1/2 then "center" else if y < 1/2 then "bottom" else "top"
  let text_kw : KW := fun k =>
    if k = "xycoords" then some (.str "axes fraction")
    else if k = "ha" then some (.str ha)
    else if k = "va" then some (.str va)
    else none
  { s := s, xy := (x, y), kw := mergeKW text_kw kwargs }

/-- Bar rectangle, carrying the results of `get_x`, `get_width` and
`get_height`. -/
structure Rect where
  x : ℚ
  width : ℚ
  height : ℚ
deriving DecidableEq

/-- Result of the `ax.text` call made by `autolabel` for one bar. -/
structure BarLabel where
  x : ℚ
  y : ℚ
  text : String
  ha : String
  va : String
deriving DecidableEq

/-- Models CPython `str.lower` on a single ASCII character (every key of
the `autolabel` dictionaries is ASCII). -/
def pyLowerChar (c : Char) : Char :=
  if 65 ≤ c.toNat ∧ c.toNat ≤ 90 then Char.ofNat (c.toNat + 32) else c

/-- Models CPython `str.lower` restricted to ASCII strings. -/
def pyLower (s : String) : String := String.mk (s.data.map pyLowerChar)

/-- The `ha` dictionary of `autolabel`; `none` models a `KeyError`. -/
def haDict (k : String) : Option String :=
  if k = "center" then some "center"
  else if k = "right" then some "left"
  else if k = "left" then some "right"
  else none

/-- The `offset` dictionary of `autolabel`; `none` models a `KeyError`. -/
def offsetDict (k : String) : Option ℚ :=
  if k = "center" then some (1/2)
  else if k = "right" then some (57/100)
  else if k = "left" then some (43/100)
  else none

/-- Embeds one iteration of the `autolabel` loop body for a single bar:
lower-case the side argument, compute the vertical alignment from the sign
of the height, clamp the height to `ylim` when given, and emit the text
call.  The format template is modelled as the function it denotes, applied
exactly where `formatstr.format(height)` is applied in the source (to the
local, possibly clamped, `height` variable). -/
def autolabelRect (rect : Rect) (xpos : String) (formatstr : ℚ → String)
    (ylim : Option (ℚ × ℚ)) : Option BarLabel :=
  let xp := pyLower xpos
  let height := rect.height
  let va := if height ≥ 0 then "bottom" else "top"
  let hv : ℚ × String :=
    match ylim with
    | some l => if height < l.1 then (l.1, "bottom") else (height, va)
    | none => (height, va)
  let hv2 : ℚ × String :=
    match ylim with
    | some l => if l.2 < hv.1 then (l.2, "top") else hv
    | none => hv
  match haDict xp, offsetDict xp with
  | some h, some off =>
      some { x := rect.x + rect.width * off, y := hv2.1,
             text := formatstr hv2.1, ha := h, va := hv2.2 }
  | _, _ => none

/-- Embeds the full `autolabel` loop over a list of bars; `none` models the
`KeyError` raised on an unknown side argument. -/
def autolabel (rects : List Rect) (xpos : String) (formatstr : ℚ → String)
    (ylim : Option (ℚ × ℚ)) : Option (List BarLabel) :=
  rects.mapM (fun rect => autolabelRect rect xpos formatstr ylim)

/-- Plot axis, carrying its y-axis range as returned by `get_ylim`. -/
structure Axis where
  ylim : ℚ × ℚ
deriving DecidableEq

/-- Embeds `mplhelper.set_ylim_symm`: symmetrize the y-axis range about
zero. -/
def set_ylim_symm (ax : Axis) : Axis :=
  let yb := ax.ylim.1
  let yt := ax.ylim.2
  let yabsmax := max |yb| |yt|
  { ax with ylim := (-yabsmax, yabsmax) }

/-- Embeds `mplhelper.set_sharey_symm`: a first pass folds the maximum
absolute bound over all axes starting from `0`, a second pass applies the
symmetric range to every axis. -/
def set_sharey_symm (axs : List Axis) : List Axis :=
  let yabsmax := axs.foldl (fun acc ax => max |ax.ylim.1| (max |ax.ylim.2| acc)) 0
  axs.map (fun ax => { ax with ylim := (-yabsmax, yabsmax) })

/-- Embeds `mplhelper.savefig`: ensure the parent directory, pop
`tight_layout` from the keyword arguments (default `False`), then write the
rendered figure.  Rendering (`plt.tight_layout` plus `plt.savefig` with the
remaining keyword arguments) is the abstract function `render`; the final
`plt.close()` releases global pyplot state not represented in `FS`. -/
def savefig (render : KW → Bool → List Nat) (filename : List String) (kw : KW)
    (fs : FS) : Except String FS :=
  let tight_layout : Bool :=
    match kw "tight_layout" with
    | some v => v.truthy
    | none => false
  let kw2 : KW := fun k => if k = "tight_layout" then none else kw k
  (make_parent_dir filename fs).map (writeFile filename (render kw2 tight_layout))

/-- Concrete instance of a format template, used only to exhibit concrete
inputs in counterexamples and witnesses: renders an integer-valued rational
as its integer numeral, like the default template applied to an integer. -/
def rformat (q : ℚ) : String :=
  if q.den = 1 then toString q.num else toString q.num ++ "/" ++ toString q.den

/-! Helper lemmas. -/

theorem mem_ancestors_self (p : List String) (h : p ≠ []) : p ∈ ancestors p := by
  simp [ancestors, List.mem_inits, h]

theorem makedirs_ok (p : List String) (fs : FS)
    (h1 : p ≠ []) (h2 : ∀ q ∈ ancestors p, isFile q fs = false) :
    makedirs p fs =
      .ok { fs with dirs := (ancestors p).filter (fun q => ¬ q ∈ fs.dirs) ++ fs.dirs } := by
  have hno : (ancestors p).any (fun q => isFile q fs) = false := by
    rw [List.any_eq_false]
    intro q hq
    simp [h2 q hq]
  rw [makedirs, if_neg h1, if_neg (by simp [hno])]

theorem makedirs_ok_inv (p : List String) (fs fs1 : FS) (h : makedirs p fs = .ok fs1) :
    p ≠ [] ∧ fs1.files = fs.files ∧ fs.dirs ⊆ fs1.dirs ∧ ∀ q ∈ ancestors p, q ∈ fs1.dirs := by
  by_cases h1 : p = []
  · rw [makedirs, if_pos h1] at h; exact absurd h (by simp)
  by_cases h2 : (ancestors p).any (fun q => isFile q fs) = true
  · rw [makedirs, if_neg h1, if_pos h2] at h; exact absurd h (by simp)
  rw [makedirs, if_neg h1, if_neg h2] at h
  have hfs1 : fs1 = { fs with dirs := (ancestors p).filter (fun q => ¬ q ∈ fs.dirs) ++ fs.dirs } := by
    cases h; rfl
  subst hfs1
  refine ⟨h1, rfl, fun d hd => by simp [hd], fun q hq => ?_⟩
  simp only [List.mem_append, List.mem_filter]
  by_cases hm : q ∈ fs.dirs
  · right; exact hm
  · left; exact ⟨hq, by simp [hm]⟩

theorem makedirs_no_file (p : List String) (fs fs1 : FS) (h : makedirs p fs = .ok fs1) :
    ∀ q ∈ ancestors p, isFile q fs = false := by
  intro q hq
  by_cases h1 : p = []
  · rw [makedirs, if_pos h1] at h; exact absurd h (by simp)
  by_cases h2 : (ancestors p).any (fun q => isFile q fs) = true
  · rw [makedirs, if_neg h1, if_pos h2] at h; exact absurd h (by simp)
  exact Bool.eq_false_iff.mpr (List.any_eq_false.mp (Bool.eq_false_iff.mpr h2) q hq)

theorem makedirs_idem (p : List String) (fs fs1 : FS) (h : makedirs p fs = .ok fs1) :
    makedirs p fs1 = .ok fs1 := by
  obtain ⟨h1, hfiles, _, hmem⟩ := makedirs_ok_inv p fs fs1 h
  have hno1 : ∀ q ∈ ancestors p, isFile q fs1 = false := by
    intro q hq
    have := makedirs_no_file p fs fs1 h q hq
    simpa [isFile, hfiles] using this
  rw [makedirs_ok p fs1 h1 hno1]
  have hfilter : (ancestors p).filter (fun q => ¬ q ∈ fs1.dirs) = [] := by
    rw [List.filter_eq_nil_iff]
    intro q hq
    simp [hmem q hq]
  rw [hfilter]
  simp

theorem lookupFile_writeFile (p : List String) (content : List Nat) (fs : FS) :
    lookupFile p (writeFile p content fs) = some content := by
  simp [lookupFile, writeFile, List.find?]

/-- Common shape of all save operations: `make_parent_dir` first, then the
file write on the resulting state. -/
theorem save_shape (path : List String) (content : List Nat) (fs : FS)
    (h1 : path.dropLast ≠ [])
    (h2 : ∀ q ∈ ancestors path.dropLast, isFile q fs = false) :
    ∃ fs1, (make_parent_dir path fs).map (writeFile path content) = .ok fs1 ∧
      path.dropLast ∈ fs1.dirs ∧ lookupFile path fs1 = some content := by
  rw [make_parent_dir, makedirs_ok path.dropLast fs h1 h2]
  refine ⟨_, rfl, ?_, lookupFile_writeFile _ _ _⟩
  have := (makedirs_ok_inv path.dropLast fs _ (makedirs_ok path.dropLast fs h1 h2)).2.2.2
  exact this path.dropLast (mem_ancestors_self _ h1)

/-! Theorems settling the claims. -/

/-- C3 counterexample: the claim quantifies over every file path, but on a
bare single-component filename the parent path is empty and even the first
call to `make_parent_dir` raises `FileNotFoundError` (CPython
`os.makedirs` with an empty name fails despite `exist_ok=True`), so
calling it twice does not produce no error. -/
theorem make_parent_dir_bare_filename_errors :
    make_parent_dir ["a.txt"] (FS.mk [] []) = .error "FileNotFoundError" := rfl

/-- C3 (amended): for every file path on which `make_parent_dir` succeeds,
a second call on the same path succeeds and returns the filesystem
unchanged, the parent directory is present after both calls, and the first
call already changed nothing when the whole parent chain existed as
directories beforehand. -/
theorem make_parent_dir_idempotent (fs fs1 : FS) (path : List String)
    (h : make_parent_dir path fs = .ok fs1) :
    make_parent_dir path fs1 = .ok fs1 ∧
    path.dropLast ∈ fs1.dirs ∧
    ((∀ q ∈ ancestors path.dropLast, q ∈ fs.dirs) → fs1 = fs) := by
  obtain ⟨h1, _, _, hmem⟩ := makedirs_ok_inv path.dropLast fs fs1 h
  refine ⟨makedirs_idem path.dropLast fs fs1 h, hmem _ (mem_ancestors_self _ h1), ?_⟩
  intro hall
  have hno : ∀ q ∈ ancestors path.dropLast, isFile q fs = false :=
    makedirs_no_file path.dropLast fs fs1 h
  rw [make_parent_dir, makedirs_ok path.dropLast fs h1 hno] at h
  have hfilter : (ancestors path.dropLast).filter (fun q => ¬ q ∈ fs.dirs) = [] := by
    rw [List.filter_eq_nil_iff]
    intro q hq
    simp [hall q hq]
  rw [hfilter] at h
  cases h
  rfl

/-- C3 witness: concrete successful run, instantiating the idempotency
theorem at a two-component path on the empty filesystem. -/
theorem make_parent_dir_idempotent_witness :
    make_parent_dir ["d", "a.txt"] (FS.mk [["d"]] []) = .ok (FS.mk [["d"]] []) ∧
    ["d", "a.txt"].dropLast ∈ (FS.mk [["d"]] []).dirs ∧
    ((∀ q ∈ ancestors ["d", "a.txt"].dropLast, q ∈ (FS.mk [] []).dirs) →
      FS.mk [["d"]] [] = FS.mk [] []) :=
  make_parent_dir_idempotent (FS.mk [] []) (FS.mk [["d"]] []) ["d", "a.txt"] rfl

/-- Concatenating the chunks read by the 4096-byte read loop, in order,
restores the whole content, for any accumulator. -/
theorem readChunks_foldl (n : Nat) :
    ∀ (l : List Nat), l.length ≤ n → ∀ (acc : List Nat),
      (readChunks l).foldl (fun st chunk => st ++ chunk) acc = acc ++ l := by
  induction n with
  | zero =>
    intro l hl acc
    have : l = [] := List.eq_nil_of_length_eq_zero (Nat.le_zero.mp hl)
    subst this
    simp [readChunks]
  | succ n ih =>
    intro l hl acc
    by_cases h : l = []
    · subst h; simp [readChunks]
    · rw [readChunks, if_neg h, List.foldl_cons,
        ih (l.drop 4096) ?_ (acc ++ l.take 4096)]
      · rw [List.append_assoc, List.take_append_drop]
      · have hpos : 0 < l.length := List.length_pos.mpr h
        simp only [List.length_drop]
        omega

theorem readChunks_join (l : List Nat) :
    (readChunks l).foldl (fun st chunk => st ++ chunk) [] = l :=
  readChunks_foldl l.length l le_rfl []

/-- C6: the chunked incremental MD5 of `fileio.md5` — 4096-byte reads, each
fed to the digest in order — equals the one-pass digest of the entire byte
content of the file, for every digest function, file and filesystem. -/
theorem md5_chunked_eq_onepass (md5_hex : List Nat → String) (filename : List String)
    (fs : FS) :
    md5 md5_hex filename fs = md5_onepass md5_hex filename fs := by
  simp only [md5, md5_onepass, readChunks_join]

/-- C6 witness: concrete evaluation of the chunked digest on a small file. -/
theorem md5_chunked_eq_onepass_witness :
    md5 (fun l => toString l.length) ["f"] (FS.mk [] [(["f"], [1, 2, 3])]) = some "3" :=
  Eq.trans
    (md5_chunked_eq_onepass (fun l => toString l.length) ["f"] (FS.mk [] [(["f"], [1, 2, 3])]))
    (by decide)

/-- C7: every save operation (`write`, `json_dump`, `to_tsv`, `pickle_dump`,
`pack_msgpack`, `savefig`) invokes `make_parent_dir` before opening the
destination, so whenever the destination has a nonempty parent path free of
file conflicts — in particular, whenever the parent directories are simply
absent — the save succeeds and the parent directory exists afterwards. -/
theorem save_ops_create_parent_dir {A B C DF : Type}
    (json_enc : KW → A → List Nat) (pickle_enc : KW → B → List Nat)
    (msgpack_enc : C → List Nat) (to_csv : KW → DF → List Nat)
    (render : KW → Bool → List Nat)
    (out : List Nat) (a : A) (b : B) (c : C) (df : DF)
    (kw : KW) (path : List String) (fs : FS)
    (h1 : path.dropLast ≠ [])
    (h2 : ∀ q ∈ ancestors path.dropLast, isFile q fs = false) :
    (∃ fs1, write out path fs = .ok fs1 ∧ path.dropLast ∈ fs1.dirs) ∧
    (∃ fs1, json_dump json_enc a path kw fs = .ok fs1 ∧ path.dropLast ∈ fs1.dirs) ∧
    (∃ fs1, to_tsv to_csv df path kw fs = .ok fs1 ∧ path.dropLast ∈ fs1.dirs) ∧
    (∃ fs1, pickle_dump pickle_enc b path kw fs = .ok fs1 ∧ path.dropLast ∈ fs1.dirs) ∧
    (∃ fs1, pack_msgpack msgpack_enc c path fs = .ok fs1 ∧ path.dropLast ∈ fs1.dirs) ∧
    (∃ fs1, savefig render path kw fs = .ok fs1 ∧ path.dropLast ∈ fs1.dirs) := by
  have key : ∀ (content : List Nat), ∃ fs1,
      (make_parent_dir path fs).map (writeFile path content) = .ok fs1 ∧
      path.dropLast ∈ fs1.dirs := by
    intro content
    obtain ⟨fs1, hok, hdir, _⟩ := save_shape path content fs h1 h2
    exact ⟨fs1, hok, hdir⟩
  exact ⟨key out, key _, key _, key _, key _, key _⟩

/-- C7 witness: all six save operations on a concrete empty filesystem and
a two-component destination path. -/
theorem save_ops_create_parent_dir_witness :
    (∃ fs1, write [7] ["out", "f.bin"] (FS.mk [] []) = .ok fs1 ∧
      ["out", "f.bin"].dropLast ∈ fs1.dirs) ∧
    (∃ fs1, json_dump (fun _ n => [n]) (1 : Nat) ["out", "f.bin"] emptyKW (FS.mk [] []) =
      .ok fs1 ∧ ["out", "f.bin"].dropLast ∈ fs1.dirs) ∧
    (∃ fs1, to_tsv (fun _ n => [n]) (4 : Nat) ["out", "f.bin"] emptyKW (FS.mk [] []) =
      .ok fs1 ∧ ["out", "f.bin"].dropLast ∈ fs1.dirs) ∧
    (∃ fs1, pickle_dump (fun _ n => [n]) (2 : Nat) ["out", "f.bin"] emptyKW (FS.mk [] []) =
      .ok fs1 ∧ ["out", "f.bin"].dropLast ∈ fs1.dirs) ∧
    (∃ fs1, pack_msgpack (fun n => [n]) (3 : Nat) ["out", "f.bin"] (FS.mk [] []) =
      .ok fs1 ∧ ["out", "f.bin"].dropLast ∈ fs1.dirs) ∧
    (∃ fs1, savefig (fun _ _ => []) ["out", "f.bin"] emptyKW (FS.mk [] []) =
      .ok fs1 ∧ ["out", "f.bin"].dropLast ∈ fs1.dirs) :=
  save_ops_create_parent_dir (fun _ n => [n]) (fun _ n => [n]) (fun n => [n])
    (fun _ n => [n]) (fun _ _ => []) [7] 1 2 3 4 emptyKW ["out", "f.bin"] (FS.mk [] [])
    (by decide) (by decide)

/-- C5: for every value that its serializer round-trips (the definition of
serializable in the spec data model), saving through the repository wrapper
and loading from the same path restores the value, for JSON, tab-separated
tables under the parser defaults, pickle, and MessagePack. -/
theorem serialization_round_trip {A B C DF : Type}
    (json_enc : KW → A → List Nat) (json_dec : List Nat → Option A)
    (pickle_enc : KW → B → List Nat) (pickle_dec : List Nat → Option B)
    (msgpack_enc : C → List Nat) (msgpack_dec : List Nat → Option C)
    (to_csv : KW → DF → List Nat) (read_csv : KW → List Nat → Option DF)
    (a : A) (b : B) (c : C) (df : DF) (path : List String) (fs : FS)
    (h1 : path.dropLast ≠ [])
    (h2 : ∀ q ∈ ancestors path.dropLast, isFile q fs = false)
    (hj : json_dec (json_enc emptyKW a) = some a)
    (ht : read_csv (mergeKW readTsvKw emptyKW) (to_csv (mergeKW toTsvKw emptyKW) df) = some df)
    (hp : pickle_dec (pickle_enc emptyKW b) = some b)
    (hm : msgpack_dec (msgpack_enc c) = some c) :
    (∃ fs1, json_dump json_enc a path emptyKW fs = .ok fs1 ∧
      json_load json_dec path fs1 = some a) ∧
    (∃ fs1, to_tsv to_csv df path emptyKW fs = .ok fs1 ∧
      read_tsv read_csv path emptyKW fs1 = some df) ∧
    (∃ fs1, pickle_dump pickle_enc b path emptyKW fs = .ok fs1 ∧
      pickle_load pickle_dec path fs1 = some b) ∧
    (∃ fs1, pack_msgpack msgpack_enc c path fs = .ok fs1 ∧
      unpack_msgpack msgpack_dec path fs1 = some c) := by
  refine ⟨?_, ?_, ?_, ?_⟩
  · obtain ⟨fs1, hok, _, hlook⟩ := save_shape path (json_enc emptyKW a) fs h1 h2
    refine ⟨fs1, hok, ?_⟩
    unfold json_load
    rw [hlook, Option.some_bind]
    exact hj
  · obtain ⟨fs1, hok, _, hlook⟩ := save_shape path (to_csv (mergeKW toTsvKw emptyKW) df) fs h1 h2
    refine ⟨fs1, hok, ?_⟩
    unfold read_tsv
    rw [hlook, Option.some_bind]
    exact ht
  · obtain ⟨fs1, hok, _, hlook⟩ := save_shape path (pickle_enc emptyKW b) fs h1 h2
    refine ⟨fs1, hok, ?_⟩
    unfold pickle_load
    rw [hlook, Option.some_bind]
    exact hp
  · obtain ⟨fs1, hok, _, hlook⟩ := save_shape path (msgpack_enc c) fs h1 h2
    refine ⟨fs1, hok, ?_⟩
    unfold unpack_msgpack
    rw [hlook, Option.some_bind]
    exact hm

/-- C5 witness: concrete round trips through all four formats on the empty
filesystem, with injective toy serializers. -/
theorem serialization_round_trip_witness :
    (∃ fs1, json_dump (fun _ n => [n]) (1 : Nat) ["out", "data.bin"] emptyKW (FS.mk [] []) =
      .ok fs1 ∧ json_load (fun l => l.head?) ["out", "data.bin"] fs1 = some 1) ∧
    (∃ fs1, to_tsv (fun _ n => [n]) (4 : Nat) ["out", "data.bin"] emptyKW (FS.mk [] []) =
      .ok fs1 ∧ read_tsv (fun _ l => l.head?) ["out", "data.bin"] emptyKW fs1 = some 4) ∧
    (∃ fs1, pickle_dump (fun _ n => [n]) (2 : Nat) ["out", "data.bin"] emptyKW (FS.mk [] []) =
      .ok fs1 ∧ pickle_load (fun l => l.head?) ["out", "data.bin"] fs1 = some 2) ∧
    (∃ fs1, pack_msgpack (fun n => [n]) (3 : Nat) ["out", "data.bin"] (FS.mk [] []) =
      .ok fs1 ∧ unpack_msgpack (fun l => l.head?) ["out", "data.bin"] fs1 = some 3) :=
  serialization_round_trip (fun _ n => [n]) (fun l => l.head?) (fun _ n => [n])
    (fun l => l.head?) (fun n => [n]) (fun l => l.head?) (fun _ n => [n]) (fun _ l => l.head?)
    1 2 3 4 ["out", "data.bin"] (FS.mk [] []) (by decide) (by decide) rfl rfl rfl rfl

/-- C2: when `ylim` is given with ordered limits and a bar height falls
outside `[ylim.1, ylim.2]`, the emitted label has its y position clamped to
the nearest limit, vertical alignment `bottom` at the lower limit and `top`
at the upper limit, and its text is the format template applied to the
clamped height, for every call that does not raise a `KeyError`. -/
theorem autolabel_ylim_clamp (r : Rect) (xpos : String) (fmt : ℚ → String) (lo hi : ℚ)
    (hsome : (autolabelRect r xpos fmt (some (lo, hi))).isSome = true)
    (hlim : lo ≤ hi) :
    (r.height < lo →
      (autolabelRect r xpos fmt (some (lo, hi))).map (fun L => (L.y, L.va, L.text)) =
        some (lo, "bottom", fmt lo)) ∧
    (hi < r.height →
      (autolabelRect r xpos fmt (some (lo, hi))).map (fun L => (L.y, L.va, L.text)) =
        some (hi, "top", fmt hi)) := by
  rcases hha : haDict (pyLower xpos) with _ | ha
  · simp [autolabelRect, hha] at hsome
  rcases hoff : offsetDict (pyLower xpos) with _ | off
  · simp [autolabelRect, hha, hoff] at hsome
  constructor
  · intro hlt
    simp [autolabelRect, hha, hoff, hlt, not_lt.mpr hlim]
  · intro hgt
    simp [autolabelRect, hha, hoff, hgt, not_lt.mpr (le_trans hlim hgt.le)]

/-- C2 witness: a bar of height 15 against `ylim = (0, 10)` is labelled at
`y = 10`, aligned `top`, showing the clamped height. -/
theorem autolabel_ylim_clamp_witness :
    (autolabelRect (Rect.mk 0 1 15) "center" rformat (some (0, 10))).map
      (fun L => (L.y, L.va, L.text)) = some (10, "top", rformat 10) :=
  (autolabel_ylim_clamp (Rect.mk 0 1 15) "center" rformat 0 10 (by decide) (by decide)).2
    (by decide)

/-- C1 counterexample: with `ylim = (0, 10)` and a bar of height 15, the
label is indeed placed at `y = 10` with alignment `top`, but the rendered
text is the template applied to the clamped value 10, not to the true
height 15 as the claim states: the source formats the local `height`
variable after the clamping assignments. -/
theorem autolabel_true_height_not_shown :
    (autolabelRect (Rect.mk 0 1 15) "center" rformat (some (0, 10))).map BarLabel.text =
      some "10" ∧
    rformat 15 = "15" ∧
    (autolabelRect (Rect.mk 0 1 15) "center" rformat (some (0, 10))).map BarLabel.text ≠
      some (rformat 15) := ⟨by decide, by decide, by decide⟩

/-- C1 (amended): with `ylim = (0, 10)` and a bar of height 15, the label
is placed at `y = 10` with vertical alignment `top`, and the rendered text
shows the clamped height 10 (the template applied to 10), not the true
height 15. -/
theorem autolabel_label_shows_clamped_height :
    (autolabelRect (Rect.mk 0 1 15) "center" rformat (some (0, 10))).map
      (fun L => (L.y, L.va, L.text)) = some (10, "top", "10") ∧
    rformat 10 = "10" ∧ rformat 15 = "15" := ⟨by decide, by decide, by decide⟩

/-- Helper for C10: `autolabelRect` only consumes the side argument through
`pyLower`, so arguments with the same lower-casing behave identically. -/
theorem autolabelRect_lower_congr (r : Rect) (fmt : ℚ → String) (ylim : Option (ℚ × ℚ))
    (x1 x2 : String) (h : pyLower x1 = pyLower x2) :
    autolabelRect r x1 fmt ylim = autolabelRect r x2 fmt ylim := by
  simp only [autolabelRect, h]

/-- C10: `autolabel` lower-cases its side argument before use, so the side
string is case-insensitive — two spellings with equal lower-casings behave
identically, in particular `CENTER`, `Left` and `right` behave like their
lowercase forms — and the dictionary lookups are performed on the
lower-cased value. -/
theorem autolabel_xpos_case_insensitive (r : Rect) (fmt : ℚ → String)
    (ylim : Option (ℚ × ℚ)) (x1 x2 : String) (h : pyLower x1 = pyLower x2) :
    autolabelRect r x1 fmt ylim = autolabelRect r x2 fmt ylim ∧
    autolabelRect r "CENTER" fmt ylim = autolabelRect r "center" fmt ylim ∧
    autolabelRect r "Left" fmt ylim = autolabelRect r "left" fmt ylim ∧
    autolabelRect r "right" fmt ylim = autolabelRect r "right" fmt ylim ∧
    haDict (pyLower "Left") = haDict "left" ∧
    offsetDict (pyLower "Left") = offsetDict "left" :=
  ⟨autolabelRect_lower_congr r fmt ylim x1 x2 h,
   autolabelRect_lower_congr r fmt ylim "CENTER" "center" (by decide),
   autolabelRect_lower_congr r fmt ylim "Left" "left" (by decide),
   rfl, rfl, rfl⟩

/-- C10 witness: concrete bar labelled with side `LEFT` versus `left`. -/
theorem autolabel_xpos_case_insensitive_witness :
    autolabelRect (Rect.mk 0 1 3) "LEFT" rformat none =
      autolabelRect (Rect.mk 0 1 3) "left" rformat none ∧
    autolabelRect (Rect.mk 0 1 3) "CENTER" rformat none =
      autolabelRect (Rect.mk 0 1 3) "center" rformat none ∧
    autolabelRect (Rect.mk 0 1 3) "Left" rformat none =
      autolabelRect (Rect.mk 0 1 3) "left" rformat none ∧
    autolabelRect (Rect.mk 0 1 3) "right" rformat none =
      autolabelRect (Rect.mk 0 1 3) "right" rformat none ∧
    haDict (pyLower "Left") = haDict "left" ∧
    offsetDict (pyLower "Left") = offsetDict "left" :=
  autolabel_xpos_case_insensitive (Rect.mk 0 1 3) rformat none "LEFT" "left" (by decide)

/-- Keyword lookup of the merged `autotext` dictionary at `ha`: the caller
value when present, otherwise the computed horizontal alignment. -/
theorem autotext_kw_ha (x y : ℚ) (s : String) (kwargs : KW) :
    (autotext x y s kwargs).kw "ha" =
      (kwargs "ha").elim
        (some (.str (if x = 1/2 then "center" else if x < 1/2 then "left" else "right")))
        some := rfl

/-- Keyword lookup of the merged `autotext` dictionary at `va`. -/
theorem autotext_kw_va (x y : ℚ) (s : String) (kwargs : KW) :
    (autotext x y s kwargs).kw "va" =
      (kwargs "va").elim
        (some (.str (if y = 1/2 then "center" else if y < 1/2 then "bottom" else "top")))
        some := rfl

/-- Keyword lookup of the merged `autotext` dictionary at `xycoords`. -/
theorem autotext_kw_xycoords (x y : ℚ) (s : String) (kwargs : KW) :
    (autotext x y s kwargs).kw "xycoords" =
      (kwargs "xycoords").elim (some (.str "axes fraction")) some := rfl

/-- Specialization of `autotext_kw_ha` to a call without caller keyword
arguments. -/
theorem autotext_kw_ha_default (x y : ℚ) (s : String) :
    (autotext x y s emptyKW).kw "ha" =
      some (.str (if x = 1/2 then "center" else if x < 1/2 then "left" else "right")) := rfl

/-- Specialization of `autotext_kw_va` to a call without caller keyword
arguments. -/
theorem autotext_kw_va_default (x y : ℚ) (s : String) :
    (autotext x y s emptyKW).kw "va" =
      some (.str (if y = 1/2 then "center" else if y < 1/2 then "bottom" else "top")) := rfl

/-- C4: `autotext` computes horizontal alignment `center` when `x = 1/2`,
`left` when `x < 1/2` and `right` when `x > 1/2`, and vertical alignment
`center` when `y = 1/2`, `bottom` when `y < 1/2` and `top` when `y > 1/2`;
in particular `(1/2, 1/2)` yields center and center, `(0, 1)` yields left
and top, and `(1, 0)` yields right and bottom. -/
theorem autotext_alignment (x y : ℚ) (s : String) :
    (x = 1/2 → (autotext x y s emptyKW).kw "ha" = some (PyVal.str "center")) ∧
    (x < 1/2 → (autotext x y s emptyKW).kw "ha" = some (PyVal.str "left")) ∧
    (1/2 < x → (autotext x y s emptyKW).kw "ha" = some (PyVal.str "right")) ∧
    (y = 1/2 → (autotext x y s emptyKW).kw "va" = some (PyVal.str "center")) ∧
    (y < 1/2 → (autotext x y s emptyKW).kw "va" = some (PyVal.str "bottom")) ∧
    (1/2 < y → (autotext x y s emptyKW).kw "va" = some (PyVal.str "top")) ∧
    (autotext (1/2) (1/2) s emptyKW).kw "ha" = some (PyVal.str "center") ∧
    (autotext (1/2) (1/2) s emptyKW).kw "va" = some (PyVal.str "center") ∧
    (autotext 0 1 s emptyKW).kw "ha" = some (PyVal.str "left") ∧
    (autotext 0 1 s emptyKW).kw "va" = some (PyVal.str "top") ∧
    (autotext 1 0 s emptyKW).kw "ha" = some (PyVal.str "right") ∧
    (autotext 1 0 s emptyKW).kw "va" = some (PyVal.str "bottom") := by
  refine ⟨?_, ?_, ?_, ?_, ?_, ?_, ?_, ?_, ?_, ?_, ?_, ?_⟩
  · intro h; rw [autotext_kw_ha_default, if_pos h]
  · intro h; rw [autotext_kw_ha_default, if_neg h.ne, if_pos h]
  · intro h; rw [autotext_kw_ha_default, if_neg h.ne', if_neg (not_lt.mpr h.le)]
  · intro h; rw [autotext_kw_va_default, if_pos h]
  · intro h; rw [autotext_kw_va_default, if_neg h.ne, if_pos h]
  · intro h; rw [autotext_kw_va_default, if_neg h.ne', if_neg (not_lt.mpr h.le)]
  · rw [autotext_kw_ha_default, if_pos rfl]
  · rw [autotext_kw_va_default, if_pos rfl]
  · rw [autotext_kw_ha_default, if_neg (by norm_num : ¬ ((0:ℚ) = 1/2)),
      if_pos (by norm_num : (0:ℚ) < 1/2)]
  · rw [autotext_kw_va_default, if_neg (by norm_num : ¬ ((1:ℚ) = 1/2)),
      if_neg (not_lt.mpr (by norm_num : (1/2:ℚ) ≤ 1))]
  · rw [autotext_kw_ha_default, if_neg (by norm_num : ¬ ((1:ℚ) = 1/2)),
      if_neg (not_lt.mpr (by norm_num : (1/2:ℚ) ≤ 1))]
  · rw [autotext_kw_va_default, if_neg (by norm_num : ¬ ((0:ℚ) = 1/2)),
      if_pos (by norm_num : (0:ℚ) < 1/2)]

/-- C4 witness: the centre point, instantiating the equality cases. -/
theorem autotext_alignment_witness :
    (autotext (1/2) (1/2) "t" emptyKW).kw "ha" = some (PyVal.str "center") ∧
    (autotext (1/2) (1/2) "t" emptyKW).kw "va" = some (PyVal.str "center") :=
  ⟨(autotext_alignment (1/2) (1/2) "t").1 rfl,
   (autotext_alignment (1/2) (1/2) "t").2.2.2.1 rfl⟩

/-- C9: the caller keyword arguments of `autotext` are merged after the
automatic alignment is computed, so explicit `ha`, `va` or `xycoords`
entries override the computed alignment and the axes-fraction default; the
default survives only when the caller omits the key. -/
theorem autotext_kwargs_override (x y : ℚ) (s : String) (kwargs : KW) (v : PyVal) :
    (kwargs "ha" = some v → (autotext x y s kwargs).kw "ha" = some v) ∧
    (kwargs "va" = some v → (autotext x y s kwargs).kw "va" = some v) ∧
    (kwargs "xycoords" = some v → (autotext x y s kwargs).kw "xycoords" = some v) ∧
    (kwargs "xycoords" = none →
      (autotext x y s kwargs).kw "xycoords" = some (PyVal.str "axes fraction")) := by
  refine ⟨?_, ?_, ?_, ?_⟩ <;> intro h <;> simp [autotext, mergeKW, h]

/-- C9 witness: an explicit `ha` entry overrides the computed alignment. -/
theorem autotext_kwargs_override_witness :
    ((fun k => if k = "ha" then some (PyVal.str "right") else none) : KW) "ha" =
      some (PyVal.str "right") ∧
    (autotext 0 0 "t" (fun k => if k = "ha" then some (PyVal.str "right") else none)).kw "ha" =
      some (PyVal.str "right") :=
  ⟨by decide,
   (autotext_kwargs_override 0 0 "t"
     (fun k => if k = "ha" then some (PyVal.str "right") else none) (PyVal.str "right")).1
     (by decide)⟩

/-- Helper for C8: the fold of `max x acc` dominates its seed and every
list element. -/
theorem foldl_max_ge (l : List ℚ) : ∀ (a : ℚ),
    a ≤ l.foldl (fun acc x => max x acc) a ∧
    ∀ x ∈ l, x ≤ l.foldl (fun acc x => max x acc) a := by
  induction l with
  | nil => intro a; exact ⟨le_rfl, by simp⟩
  | cons y t ih =>
    intro a
    obtain ⟨h1, h2⟩ := ih (max y a)
    refine ⟨le_trans (le_max_right y a) h1, ?_⟩
    intro x hx
    rcases List.mem_cons.mp hx with hx | hx
    · subst hx; exact le_trans (le_max_left x a) h1
    · exact h2 x hx

/-- Helper for C8: the fold of `max x acc` is the seed or a list element. -/
theorem foldl_max_attained (l : List ℚ) : ∀ (a : ℚ),
    l.foldl (fun acc x => max x acc) a = a ∨
    ∃ x ∈ l, l.foldl (fun acc x => max x acc) a = x := by
  induction l with
  | nil => intro a; exact Or.inl rfl
  | cons y t ih =>
    intro a
    rcases ih (max y a) with h | ⟨x, hx, hval⟩
    · simp only [List.foldl_cons, h]
      rcases max_choice y a with h2 | h2
      · exact Or.inr ⟨y, List.mem_cons_self y t, h2⟩
      · exact Or.inl h2
    · exact Or.inr ⟨x, List.mem_cons_of_mem y hx, by simpa using hval⟩

/-- C8: `set_ylim_symm` replaces a y-range `(yb, yt)` by `(-m, m)` with
`m = max |yb| |yt|` — in particular `(-2, 5)` becomes `(-5, 5)` — and on a
nonempty list of axes `set_sharey_symm` first computes the global maximum
`m` of the absolute y-bounds over all axes and then sets every axis to the
same range `(-m, m)`. -/
theorem symmetrize_y_axes (ax : Axis) (axs : List Axis) (h : axs ≠ []) :
    (set_ylim_symm ax).ylim =
      (-(max |ax.ylim.1| |ax.ylim.2|), max |ax.ylim.1| |ax.ylim.2|) ∧
    (set_ylim_symm (Axis.mk (-2, 5))).ylim = (-5, 5) ∧
    ∃ m, set_sharey_symm axs = axs.map (fun a => { a with ylim := (-m, m) }) ∧
      (∀ a ∈ axs, max |a.ylim.1| |a.ylim.2| ≤ m) ∧
      ∃ a ∈ axs, max |a.ylim.1| |a.ylim.2| = m := by
  have hconc : (set_ylim_symm (Axis.mk (-2, 5))).ylim = (-5, 5) := by
    norm_num [set_ylim_symm]
  have hfold : axs.foldl (fun acc ax => max |ax.ylim.1| (max |ax.ylim.2| acc)) 0
      = (axs.map (fun ax => max |ax.ylim.1| |ax.ylim.2|)).foldl (fun acc x => max x acc) 0 := by
    rw [List.foldl_map]
    congr 1
    funext acc ax
    rw [← max_assoc]
  refine ⟨rfl, hconc, ?_⟩
  refine ⟨axs.foldl (fun acc ax => max |ax.ylim.1| (max |ax.ylim.2| acc)) 0, ?_, ?_, ?_⟩
  · rfl
  · intro a ha
    rw [hfold]
    have hm := List.mem_map_of_mem (fun ax => max |ax.ylim.1| |ax.ylim.2|) ha
    have hb := (foldl_max_ge (axs.map (fun ax => max |ax.ylim.1| |ax.ylim.2|)) 0).2
    exact hb (max |a.ylim.1| |a.ylim.2|) hm
  · rcases foldl_max_attained (axs.map (fun ax => max |ax.ylim.1| |ax.ylim.2|)) 0 with hz | hx
    · obtain ⟨a0, ha0⟩ := List.exists_mem_of_ne_nil axs h
      refine ⟨a0, ha0, ?_⟩
      rw [hfold, hz]
      have hm := List.mem_map_of_mem (fun ax => max |ax.ylim.1| |ax.ylim.2|) ha0
      have hb := (foldl_max_ge (axs.map (fun ax => max |ax.ylim.1| |ax.ylim.2|)) 0).2
      have hub := hb (max |a0.ylim.1| |a0.ylim.2|) hm
      rw [hz] at hub
      have hnn : (0:ℚ) ≤ max |a0.ylim.1| |a0.ylim.2| :=
        le_trans (abs_nonneg _) (le_max_left _ _)
      exact le_antisymm hub hnn
    · obtain ⟨x, hxmem, hxval⟩ := hx
      obtain ⟨a0, ha0, rfl⟩ := List.mem_map.mp hxmem
      refine ⟨a0, ha0, ?_⟩
      rw [hfold, hxval]

/-- C8 witness: two concrete axes sharing the symmetric range. -/
theorem symmetrize_y_axes_witness :
    (set_ylim_symm (Axis.mk (-2, 5))).ylim =
      (-(max |(Axis.mk ((-2 : ℚ), (5 : ℚ))).ylim.1| |(Axis.mk ((-2 : ℚ), (5 : ℚ))).ylim.2|),
        max |(Axis.mk ((-2 : ℚ), (5 : ℚ))).ylim.1| |(Axis.mk ((-2 : ℚ), (5 : ℚ))).ylim.2|) ∧
    (set_ylim_symm (Axis.mk (-2, 5))).ylim = (-5, 5) ∧
    ∃ m, set_sharey_symm [Axis.mk (-2, 5), Axis.mk (1, -7)] =
        [Axis.mk (-2, 5), Axis.mk (1, -7)].map (fun a => { a with ylim := (-m, m) }) ∧
      (∀ a ∈ [Axis.mk (-2, 5), Axis.mk (1, -7)], max |a.ylim.1| |a.ylim.2| ≤ m) ∧
      ∃ a ∈ [Axis.mk (-2, 5), Axis.mk (1, -7)], max |a.ylim.1| |a.ylim.2| = m :=
  symmetrize_y_axes (Axis.mk (-2, 5)) [Axis.mk (-2, 5), Axis.mk (1, -7)]
    (List.cons_ne_nil _ _)

end Rutils
